import Mathlib

/-!
Verification development for the personalAgent repository: a shallow
embedding of the orchestration layer (`orchestrator_agent.py`) and of the
pause/resume state store (`state_persistence.py`), together with theorems
settling the specified behavioural claims.

Conventions of the embedding:
* Python dicts are association lists `List (String × α)` with unique keys,
  updated in place (`mset`) exactly as a Python dict assignment keeps the
  key position.
* JSON values stored in task-state dicts are modelled by `Val` (strings,
  integers, and timestamps); wall-clock readings (`datetime.now`) are
  modelled by a logical clock carried in the store, bumped at each reading.
* Python exceptions are modelled with `Except String`.
-/

namespace PersonalAgent

/-! ## Association-list maps (Python dict model) -/

/-- Lookup in an association list: the value at the first matching key. -/
def mget {α : Type} : List (String × α) → String → Option α
  | [], _ => none
  | p :: m, k => if p.1 = k then some p.2 else mget m k

/-- Update/insert in an association list, keeping the position of an
existing key (as a Python dict assignment does) and appending a new key at
the end. -/
def mset {α : Type} : List (String × α) → String → α → List (String × α)
  | [], k, v => [(k, v)]
  | p :: m, k, v => if p.1 = k then (k, v) :: m else p :: mset m k v

/-- Deletion from an association list (Python `del d[k]`). -/
def mdel {α : Type} : List (String × α) → String → List (String × α)
  | [], _ => []
  | p :: m, k => if p.1 = k then mdel m k else p :: mdel m k

/-! ## State persistence (`state_persistence.py`) -/

/-- JSON-ish values held in task-state dicts. `time t` is a reading of the
logical clock, standing for the ISO timestamp string produced by
`datetime.now(timezone.utc).isoformat()`. -/
inductive Val where
  | str (s : String)
  | num (n : Int)
  | time (t : Nat)
deriving DecidableEq, Repr

/-- A task-state dict, as stored in a `{task_id}.json` file. -/
abbrev Dict := List (String × Val)

/-- Python `d.get(k, default)`. -/
def dgetD (d : Dict) (k : String) (v : Val) : Val := (mget d k).getD v

/-- The string a value contributes to a user-index file name
(`f"user_{user_id}_index.json"`), modelling Python string conversion. -/
def valKey : Val → String
  | .str s => s
  | .num n => toString n
  | .time t => toString t

/-- One entry of a per-user index file: the projection written by
`save_state`. -/
structure IndexEntry where
  task_id : String
  agent_type : Val
  status : Val
  saved_at : Val
deriving DecidableEq, Repr

/-- The file system as seen by `StatePersistence`: one dict per
`{task_id}.json`, one index per `user_{user_id}_index.json`, plus the
logical clock. -/
structure Store where
  states : List (String × Dict)
  indexes : List (String × List (String × IndexEntry))
  clock : Nat
deriving DecidableEq, Repr

def emptyStore : Store := ⟨[], [], 0⟩

/-- Models `StatePersistence._load_user_index`: missing file reads as `{}`. -/
def load_user_index (st : Store) (u : String) : List (String × IndexEntry) :=
  (mget st.indexes u).getD []

/-- Models `StatePersistence.save_state`. -/
def save_state (st : Store) (task_id : String) (state : Dict) : Except String Store :=
  match mget state "user_id" with
  | none => .error "State must include \x27user_id\x27 field"
  | some uv =>
    let ts := st.clock
    let state_with_metadata := mset (mset state "task_id" (Val.str task_id)) "saved_at" (Val.time ts)
    let user_id := valKey uv
    let index := load_user_index st user_id
    let entry : IndexEntry :=
      { task_id := task_id
        agent_type := dgetD state "agent_type" (Val.str "unknown")
        status := dgetD state "status" (Val.str "paused")
        saved_at := Val.time ts }
    .ok { states := mset st.states task_id state_with_metadata
          indexes := mset st.indexes user_id (mset index task_id entry)
          clock := st.clock + 1 }

/-- Models `StatePersistence.load_state`. -/
def load_state (st : Store) (task_id : String) : Option Dict := mget st.states task_id

/-- Models `StatePersistence.delete_state`. -/
def delete_state (st : Store) (task_id : String) : Store :=
  let state := load_state st task_id
  let st1 : Store := { st with states := mdel st.states task_id }
  match state with
  | some r =>
    match mget r "user_id" with
    | some uv =>
      let user_id := valKey uv
      let index := load_user_index st1 user_id
      if (mget index task_id).isSome then
        { st1 with indexes := mset st1.indexes user_id (mdel index task_id) }
      else st1
    | none => st1
  | none => st1

/-- Models `StatePersistence.list_paused_tasks`: the values of the user's
index file. -/
def list_paused_tasks (st : Store) (u : String) : List IndexEntry :=
  (load_user_index st u).map Prod.snd

/-- Models `StatePersistence.task_exists`. -/
def task_exists (st : Store) (task_id : String) : Bool :=
  (load_state st task_id).isSome

/-- Models `StatePersistence.update_task_status`: load, set `status` and
`updated_at`, re-save; no-op when the task is absent. -/
def update_task_status (st : Store) (task_id status : String) : Except String Store :=
  match load_state st task_id with
  | none => .ok st
  | some r =>
    let r1 := mset (mset r "status" (Val.str status)) "updated_at" (Val.time st.clock)
    save_state { st with clock := st.clock + 1 } task_id r1

/-! ## Orchestrator (`orchestrator_agent.py`) -/

/-- Keyword set for the meal-planning domain in `_parse_intent`. -/
def mealKeywords : List String :=
  ["meal", "recipe", "cook", "eat", "food", "dinner", "lunch", "breakfast"]

/-- Keyword set for the shopping domain in `_parse_intent`. -/
def shoppingKeywords : List String :=
  ["shop", "grocery", "groceries", "buy", "ingredient", "store"]

/-- Keyword set for the travel domain in `_parse_intent`. -/
def travelKeywords : List String :=
  ["travel", "trip", "vacation", "visit", "hotel", "flight"]

/-- Python substring test `needle in hay` on character lists. -/
def subOf (n : List Char) : List Char → Bool
  | [] => n.isEmpty
  | c :: t => n.isPrefixOf (c :: t) || subOf n t

/-- Python `needle in hay` on strings. -/
def strIn (needle hay : String) : Bool := subOf needle.toList hay.toList

/-- Python `s.lower()` (ASCII case mapping). -/
def pyLower (s : String) : String := String.mk (s.toList.map Char.toLower)

/-- Presence of a meal keyword as a substring of the lowered message. -/
def mealPresent (message : String) : Bool :=
  mealKeywords.any (fun w => strIn w (pyLower message))

/-- Presence of a shopping keyword as a substring of the lowered message. -/
def shoppingPresent (message : String) : Bool :=
  shoppingKeywords.any (fun w => strIn w (pyLower message))

/-- Presence of a travel keyword as a substring of the lowered message. -/
def travelPresent (message : String) : Bool :=
  travelKeywords.any (fun w => strIn w (pyLower message))

/-- Models `OrchestratorAgent._parse_intent`. -/
def parse_intent (message : String) : String :=
  let domains : List String :=
    (if mealPresent message then ["meal_planning"] else []) ++
    (if shoppingPresent message then ["shopping"] else []) ++
    (if travelPresent message then ["travel"] else [])
  match domains with
  | [] => "ambiguous"
  | [d] => d
  | _ => "multi_domain"

/-- Models `OrchestratorAgent._generate_clarifying_questions`: a fixed text
independent of the message. -/
def generate_clarifying_questions (_message : String) : String :=
  "I\x27m not sure what you\x27d like help with. I can assist with:\n- Meal planning (creating weekly meal plans)\n- Shopping lists (generating grocery lists)\n- Travel planning (planning trips and itineraries)\n\nWhat would you like to do?"

/-! ### Pattern extraction (`re.search` on the fixed patterns)

`re.search` returns the leftmost position at which the pattern matches, so
it is modelled by trying a positional matcher on every suffix.  For each of
the fixed patterns the greedy character-class runs (`\d+`, `\s+`, `[a-z]+`)
never need backtracking: the character class of each run is disjoint from
the first character the pattern requires after the run, so a shorter run
can never succeed where the maximal run fails. -/

/-- Leftmost-match search: try the matcher at every start position
(including the end of the string), as `re.search` does. -/
def search {α : Type} (m : List Char → Option α) : List Char → Option α
  | [] => m []
  | c :: t =>
    match m (c :: t) with
    | some x => some x
    | none => search m t

/-- A digit run `(\d+)` (greedy), returning its integer value (`int(...)`)
and the rest of the input. -/
def takeDigits (cs : List Char) : Option (Nat × List Char) :=
  let ds := cs.takeWhile Char.isDigit
  if ds.isEmpty then none
  else some (ds.foldl (fun a c => a * 10 + (c.toNat - 48)) 0, cs.dropWhile Char.isDigit)

/-- A literal match at the current position. -/
def takeLit (lit : List Char) (cs : List Char) : Option (List Char) :=
  if lit.isPrefixOf cs then some (cs.drop lit.length) else none

/-- Greedy `\s*`. -/
def skipWs (cs : List Char) : List Char := cs.dropWhile Char.isWhitespace

/-- Greedy `\s+`: at least one whitespace character, returning the matched
run and the rest. -/
def takeWs1 (cs : List Char) : Option (List Char × List Char) :=
  let ws := cs.takeWhile Char.isWhitespace
  if ws.isEmpty then none else some (ws, cs.dropWhile Char.isWhitespace)

/-- Positional matcher for `(\d+)\s*days?` (the optional `s` does not
affect the group). -/
def dayPat1 (cs : List Char) : Option Nat := do
  let (n, r1) ← takeDigits cs
  let _ ← takeLit ['d', 'a', 'y'] (skipWs r1)
  pure n

/-- Positional matcher for `(\d+)-day`. -/
def dayPat2 (cs : List Char) : Option Nat := do
  let (n, r1) ← takeDigits cs
  let r2 ← takeLit ['-'] r1
  let _ ← takeLit ['d', 'a', 'y'] r2
  pure n

/-- Positional matcher for `for\s+(\d+)\s+days?`. -/
def dayPat3 (cs : List Char) : Option Nat := do
  let r1 ← takeLit ['f', 'o', 'r'] cs
  let (_, r2) ← takeWs1 r1
  let (n, r3) ← takeDigits r2
  let (_, r4) ← takeWs1 r3
  let _ ← takeLit ['d', 'a', 'y'] r4
  pure n

/-- Models `OrchestratorAgent._extract_days`: the three patterns in order
on the lowered message, then the `week` fallback, else `None`. -/
def extract_days (message : String) : Option Nat :=
  let ml := (pyLower message).toList
  match search dayPat1 ml with
  | some n => some n
  | none =>
    match search dayPat2 ml with
    | some n => some n
    | none =>
      match search dayPat3 ml with
      | some n => some n
      | none => if strIn "week" (pyLower message) then some 7 else none

/-- `[A-Z][a-z]+`: one capitalized ASCII word, greedy. -/
def capWord (cs : List Char) : Option (List Char × List Char) :=
  match cs with
  | [] => none
  | c :: t =>
    if c.isUpper then
      let low := t.takeWhile Char.isLower
      if low.isEmpty then none
      else some (c :: low, t.dropWhile Char.isLower)
    else none

/-- `([A-Z][a-z]+(?:\s+[A-Z][a-z]+)?)`: one or two capitalized words; when
two words match, the group text includes the separating whitespace. -/
def capPhrase (cs : List Char) : Option (List Char) := do
  let (w1, r1) ← capWord cs
  match takeWs1 r1 with
  | some (ws, r2) =>
    match capWord r2 with
    | some (w2, _) => pure (w1 ++ ws ++ w2)
    | none => pure w1
  | none => pure w1

/-- A run of literals, each followed by `\s+`. -/
def leadThen (lits : List (List Char)) (cs : List Char) : Option (List Char) :=
  match lits with
  | [] => some cs
  | l :: rest => do
    let r1 ← takeLit l cs
    let (_, r2) ← takeWs1 r1
    leadThen rest r2

/-- Positional matcher for one destination pattern: leading literals, then
the capitalized-phrase group. -/
def destPat (lits : List (List Char)) (cs : List Char) : Option String := do
  let r ← leadThen lits cs
  let ph ← capPhrase r
  pure (String.mk ph)

/-- Models `OrchestratorAgent._extract_destination`: the four preposition
patterns in order, on the original (non-lowered) message. -/
def extract_destination (message : String) : Option String :=
  let cs := message.toList
  match search (destPat [['t', 'o']]) cs with
  | some d => some d
  | none =>
    match search (destPat [['v', 'i', 's', 'i', 't']]) cs with
    | some d => some d
    | none =>
      match search (destPat [['t', 'r', 'i', 'p'], ['t', 'o']]) cs with
      | some d => some d
      | none => search (destPat [['i', 'n']]) cs

/-- Python `x or default` for an optional int: both `None` and `0` are
falsy, as in `self._extract_days(message) or 7`. -/
def pyOrNat (o : Option Nat) (d : Nat) : Nat :=
  match o with
  | some n => if n = 0 then d else n
  | none => d

/-! ### Domain agents and routing

The domain agents are external collaborators; each is modelled as a
function that may fail (`Except String` stands for a raised exception).
Their payloads carry exactly the fields `_generate_summary` reads.  Money
amounts are modelled in cents so that the two-decimal formatting is
exact. -/

/-- The fields of a `MealPlan` the orchestrator reads. -/
structure MealPlan where
  durationDays : Nat
  mealsCount : Nat
  total_recipes : Nat
deriving DecidableEq, Repr

/-- The fields of a `ShoppingList` the orchestrator reads. -/
structure ShoppingList where
  itemsCount : Nat
  categoriesCount : Nat
  estimated_total : Nat
deriving DecidableEq, Repr

/-- The fields of a `TripPlan` the orchestrator reads. -/
structure TripPlan where
  durationDays : Nat
  destination : String
  accommodationName : String
  estimated_cost : Nat
deriving DecidableEq, Repr

/-- Two-decimal money formatting (`f"{x:.2f}"`), on cents. -/
def fmt2 (cents : Nat) : String :=
  toString (cents / 100) ++ "." ++ (if cents % 100 < 10 then "0" else "") ++ toString (cents % 100)

/-- User preferences, an opaque mapping as far as the orchestrator cares. -/
abbrev Prefs := List (String × String)

/-- The two domain agents `route_to_agent` actually calls.  Dates are day
numbers standing for the ISO strings passed in the source. -/
structure Agents where
  generate_meal_plan : String → Nat → Prefs → Except String MealPlan
  plan_trip : String → String → Nat × Nat → Nat → Prefs → Except String TripPlan

/-- The routing context dict built by `process_message`.  The two
`Override` fields stand for extra keys a direct caller could place in the
context dict; the source reads only `user_id`, `preferences` and
`message`, so they are never consulted. -/
structure Ctx where
  user_id : String
  session_id : String
  preferences : Prefs
  message : String
  datesOverride : Option (Nat × Nat) := none
  budgetOverride : Option Nat := none

/-- Payload of a route result (`data` in the returned dict). -/
inductive RData where
  | mealD (m : MealPlan)
  | shopD (s : ShoppingList)
  | tripD (t : TripPlan)
  | listD (rs : List (Bool × Option RData × String))

/-- A route result dict `{success, data, message}`. -/
abbrev RouteRes := Bool × Option RData × String

/-- Field `success` of a route result. -/
def rSuccess (r : RouteRes) : Bool := r.1

/-- Field `data` of a route result. -/
def rData (r : RouteRes) : Option RData := r.2.1

/-- Field `message` of a route result. -/
def rMsg (r : RouteRes) : String := r.2.2

/-- Route result constructor. -/
def mkRes (s : Bool) (d : Option RData) (m : String) : RouteRes := (s, d, m)

/-- Models `OrchestratorAgent.route_to_agent`.  `today` is `date.today()`
as a day number.  The try/except around the whole dispatch appears as the
`Except` match at each agent call, the only operations that can raise; the
`multi_domain` branch re-invokes the function with the three single-domain
intents, as the source does. -/
def route_to_agent (ag : Agents) (today : Nat) (intent : String) (context : Ctx) : RouteRes :=
  let user_id := context.user_id
  let preferences := context.preferences
  let message := context.message
  if intent = "meal_planning" then
    let days := pyOrNat (extract_days message) 7
    match ag.generate_meal_plan user_id days preferences with
    | .ok meal_plan =>
      mkRes true (some (.mealD meal_plan)) ("Generated " ++ toString days ++ "-day meal plan")
    | .error e => mkRes false none ("Error processing request: " ++ e)
  else if intent = "shopping" then
    mkRes false none "Please generate a meal plan first before creating a shopping list"
  else if intent = "travel" then
    match extract_destination message with
    | none => mkRes false none "Please specify a destination for your trip"
    | some destination =>
      let start_date := today + 30
      let end_date := start_date + 7
      let budget := 2000
      match ag.plan_trip user_id destination (start_date, end_date) budget preferences with
      | .ok trip_plan =>
        mkRes true (some (.tripD trip_plan)) ("Created trip plan for " ++ destination)
      | .error e => mkRes false none ("Error processing request: " ++ e)
  else if hmd : intent = "multi_domain" then
    let results :=
      (if strIn "meal" (pyLower message) then [route_to_agent ag today "meal_planning" context] else []) ++
      (if strIn "shop" (pyLower message) then [route_to_agent ag today "shopping" context] else []) ++
      (if strIn "travel" (pyLower message) || strIn "trip" (pyLower message) then
        [route_to_agent ag today "travel" context] else [])
    mkRes true (some (.listD results)) "Completed multi-domain request"
  else
    mkRes false none ("Unknown intent: " ++ intent)
termination_by (if intent = "multi_domain" then 1 else 0)
decreasing_by
  all_goals rw [if_pos hmd]; simp

/-- Models `OrchestratorAgent._generate_summary`. -/
def generate_summary (intent : String) (result : RouteRes) : String :=
  if rSuccess result = false then rMsg result
  else if intent = "meal_planning" then
    match rData result with
    | some (.mealD mp) =>
      "✓ Created a " ++ toString mp.durationDays ++ "-day meal plan with " ++
        toString mp.mealsCount ++ " meals using " ++ toString mp.total_recipes ++ " recipes."
    | _ => rMsg result
  else if intent = "shopping" then
    match rData result with
    | some (.shopD sl) =>
      "✓ Generated shopping list with " ++ toString sl.itemsCount ++ " items across " ++
        toString sl.categoriesCount ++ " categories. Estimated total: $" ++ fmt2 sl.estimated_total
    | _ => rMsg result
  else if intent = "travel" then
    match rData result with
    | some (.tripD tp) =>
      "✓ Planned " ++ toString tp.durationDays ++ "-day trip to " ++ tp.destination ++
        ". Accommodation: " ++ tp.accommodationName ++ ". Estimated cost: $" ++ fmt2 tp.estimated_cost
    | _ => rMsg result
  else if intent = "multi_domain" then
    match rData result with
    | some (.listD rs) =>
      let summaries := (rs.filter (fun r => r.1)).map (fun r => r.2.2)
      "✓ Completed multiple tasks:\n" ++ String.intercalate "\n" (summaries.map (fun s => "  - " ++ s))
    | _ => rMsg result
  else rMsg result

/-! ### Sessions and the orchestrator entry point -/

/-- A conversation message (role/content pair as appended by
`process_message`). -/
structure Msg where
  role : String
  content : String
deriving DecidableEq, Repr

/-- A session record (`session_manager.Session`); timestamps are logical
clock readings, `metadataPrefs` is the preferences snapshot placed in
`session.metadata` at creation. -/
structure Sess where
  session_id : String
  user_id : String
  messages : List Msg
  created_at : Nat
  updated_at : Nat
  metadataPrefs : Option Prefs
deriving DecidableEq, Repr

/-- The in-memory session service, the logical clock and the uuid supply. -/
structure World where
  sessions : List (String × Sess)
  clock : Nat
  nextId : Nat
deriving DecidableEq, Repr

def emptyWorld : World := ⟨[], 0, 0⟩

/-- Models `SessionManager.create_session` (with a memory bank attached):
a fresh uuid, an empty message list, preferences snapshot into metadata. -/
def create_session (w : World) (user_id : String) (prefsOf : String → Prefs) : String × World :=
  let session_id := "session-" ++ toString w.nextId
  let s : Sess :=
    { session_id := session_id, user_id := user_id, messages := [],
      created_at := w.clock, updated_at := w.clock,
      metadataPrefs := some (prefsOf user_id) }
  (session_id, { sessions := mset w.sessions session_id s, clock := w.clock + 1, nextId := w.nextId + 1 })

/-- Models `SessionManager.update_session`: extend the message list and
bump `updated_at`; no-op when the session is unknown. -/
def update_session (w : World) (session_id : String) (msgs : List Msg) : World :=
  match mget w.sessions session_id with
  | none => w
  | some s =>
    { w with
      sessions := mset w.sessions session_id
        { s with messages := s.messages ++ msgs, updated_at := w.clock },
      clock := w.clock + 1 }

/-- Values of the response envelope dict returned by `process_message`. -/
inductive OutVal where
  | strV (s : String)
  | dataV (d : Option RData)
  | boolV (b : Bool)

/-- The response envelope: a dict literal in the source, so key order is
kept. -/
abbrev OutDict := List (String × OutVal)

/-- Models `OrchestratorAgent.process_message`.  `prefsOf` models
`memory_bank.get_all_preferences` (a pure read).  Returns the response
envelope and the updated world. -/
def process_message (ag : Agents) (prefsOf : String → Prefs) (today : Nat)
    (w : World) (user_id message : String) (sessionArg : Option String) :
    OutDict × World :=
  -- `if not session_id`: an absent or empty id is falsy and triggers creation
  let (session_id, w1) :=
    match sessionArg with
    | none => create_session w user_id prefsOf
    | some s => if s = "" then create_session w user_id prefsOf else (s, w)
  let preferences := prefsOf user_id
  let intent := parse_intent message
  if intent = "ambiguous" then
    ([("response", .strV (generate_clarifying_questions message)),
      ("intent", .strV "ambiguous"),
      ("requires_clarification", .boolV true)], w1)
  else
    let context : Ctx :=
      { user_id := user_id, session_id := session_id,
        preferences := preferences, message := message }
    let result := route_to_agent ag today intent context
    let summary := generate_summary intent result
    let w2 := update_session w1 session_id
      [{ role := "user", content := message }, { role := "assistant", content := summary }]
    ([("response", .strV summary),
      ("intent", .strV intent),
      ("data", .dataV (rData result)),
      ("session_id", .strV session_id)], w2)

/-! ## Operation sequences over the state store (for the index invariant) -/

/-- The store-mutating operations of `StatePersistence` covered by the
index-consistency claim. -/
inductive Op where
  | save (task_id : String) (state : Dict)
  | del (task_id : String)
  | upd (task_id : String) (status : String)

/-- Executing one operation.  A raised `ValidationError` leaves the store
untouched: in the source the exception fires before any file is written. -/
def execOp (st : Store) : Op → Store
  | .save t state =>
    match save_state st t state with
    | .ok st' => st'
    | .error _ => st
  | .del t => delete_state st t
  | .upd t s =>
    match update_task_status st t s with
    | .ok st' => st'
    | .error _ => st

/-- Executing a sequence of operations from left to right. -/
def execOps (st : Store) : List Op → Store
  | [] => st
  | op :: rest => execOps (execOp st op) rest

/-- A save step is user-stable when it does not overwrite an existing
record with a different `user_id`. -/
def stableStep (st : Store) : Op → Bool
  | .save t state =>
    match load_state st t with
    | some r => mget r "user_id" == mget state "user_id"
    | none => true
  | _ => true

/-- User-stability of a whole operation sequence, step by step. -/
def stableSeq (st : Store) : List Op → Bool
  | [] => true
  | op :: rest => stableStep st op && stableSeq (execOp st op) rest

/-- The per-user index entry at key `t` agrees with the stored record `r`:
same task id, the `save_state` projection of `agent_type` and `status`
(with their defaults), and the same `saved_at` stamp. -/
def entryAgrees (t : String) (e : IndexEntry) (r : Dict) : Prop :=
  e.task_id = t ∧
  e.agent_type = dgetD r "agent_type" (Val.str "unknown") ∧
  e.status = dgetD r "status" (Val.str "paused") ∧
  mget r "saved_at" = some e.saved_at

/-- The index-consistency invariant: every stored record carries a
`user_id`; every index entry corresponds to a stored record of that user
and agrees with it; every stored record is indexed under its user; and
every index file is well-keyed (no duplicate keys, each entry keyed by its
own `task_id`). -/
def Inv (st : Store) : Prop :=
  (∀ t r, load_state st t = some r → ∃ uv, mget r "user_id" = some uv) ∧
  (∀ u t e, mget (load_user_index st u) t = some e →
    ∃ r uv, load_state st t = some r ∧ mget r "user_id" = some uv ∧
      valKey uv = u ∧ entryAgrees t e r) ∧
  (∀ t r uv, load_state st t = some r → mget r "user_id" = some uv →
    ∃ e, mget (load_user_index st (valKey uv)) t = some e) ∧
  (∀ u, ((load_user_index st u).map Prod.fst).Nodup ∧
    ∀ p ∈ load_user_index st u, p.2.task_id = p.1)

/-- The two-save sequence that re-homes task `t1` from user `u1` to `u2`,
leaving a stale entry in `u1`'s index. -/
def divergeOps : List Op :=
  [.save "t1" [("user_id", Val.str "u1")], .save "t1" [("user_id", Val.str "u2")]]

/-! ## Concrete collaborators for instantiations -/

/-- A pair of always-succeeding domain agents echoing their arguments into
the payload fields. -/
def demoAgents : Agents :=
  { generate_meal_plan := fun _ days _ => .ok ⟨days, days * 3, days⟩
    plan_trip := fun _ dst _ budget _ => .ok ⟨7, dst, "Grand Hotel", budget⟩ }

/-- A pair of domain agents that record the dates and budget they receive
inside the trip payload (`durationDays` holds `100 * start + end`,
`estimated_cost` the budget). -/
def probeAgents : Agents :=
  { generate_meal_plan := fun _ days _ => .ok ⟨days, days * 3, days⟩
    plan_trip := fun _ dst dates budget _ =>
      .ok ⟨100 * dates.1 + dates.2, dst, "probe", budget⟩ }

/-- A pair of always-raising domain agents. -/
def failAgents : Agents :=
  { generate_meal_plan := fun _ _ _ => .error "meal agent down"
    plan_trip := fun _ _ _ _ _ => .error "travel agent down" }

/-- A plain routing context around a message. -/
def ctxOf (m : String) : Ctx :=
  { user_id := "u", session_id := "s", preferences := [], message := m }

/-- A routing context carrying hypothetical date and budget overrides. -/
def ctxOverride (m : String) : Ctx :=
  { user_id := "u", session_id := "s", preferences := [], message := m,
    datesOverride := some (1, 2), budgetOverride := some 999 }

/-- Projection: the number of days recorded in a meal-plan payload. -/
def mealDaysOf (r : RouteRes) : Option Nat :=
  match rData r with
  | some (.mealD mp) => some mp.durationDays
  | _ => none

/-- Projection: the cost recorded in a trip payload. -/
def tripCostOf (r : RouteRes) : Option Nat :=
  match rData r with
  | some (.tripD tp) => some tp.estimated_cost
  | _ => none

/-- Projection: the duration field recorded in a trip payload. -/
def tripDaysOf (r : RouteRes) : Option Nat :=
  match rData r with
  | some (.tripD tp) => some tp.durationDays
  | _ => none

/-- Projection: the accommodation name recorded in a trip payload. -/
def tripAccomOf (r : RouteRes) : Option String :=
  match rData r with
  | some (.tripD tp) => some tp.accommodationName
  | _ => none

/-- A one-record store holding task `t1` for user `u` (the result of
`save_state` on the empty store). -/
def store1 : Store :=
  ⟨[("t1", [("user_id", Val.str "u"), ("task_id", Val.str "t1"), ("saved_at", Val.time 0)])],
   [("u", [("t1", ⟨"t1", Val.str "unknown", Val.str "paused", Val.time 0⟩)])], 1⟩

/-! ## Association-list lemmas -/

theorem mget_mset {α : Type} (m : List (String × α)) (k k' : String) (v : α) :
    mget (mset m k v) k' = if k' = k then some v else mget m k' := by
  induction m with
  | nil =>
    by_cases h : k' = k
    · subst h; simp [mset, mget]
    · simp [mset, mget, h, Ne.symm h]
  | cons p m ih =>
    by_cases h1 : p.1 = k
    · by_cases h2 : k' = k
      · subst h2; simp [mset, mget, h1]
      · have h4 : ¬ p.1 = k' := fun hh => h2 (by rw [← hh, h1])
        simp [mset, mget, h1, h2, h4, Ne.symm h2]
    · by_cases h2 : p.1 = k'
      · have hk : ¬ k' = k := fun hh => h1 (h2.trans hh)
        simp [mset, mget, h1, h2, hk]
      · simp [mset, mget, h1, h2, ih]

theorem mget_mdel {α : Type} (m : List (String × α)) (k k' : String) :
    mget (mdel m k) k' = if k' = k then none else mget m k' := by
  induction m with
  | nil => by_cases h : k' = k <;> simp [mdel, mget, h]
  | cons p m ih =>
    by_cases h1 : p.1 = k
    · by_cases h2 : k' = k
      · subst h2; simp [mdel, h1, ih]
      · have h4 : ¬ p.1 = k' := fun hh => h2 (by rw [← hh, h1])
        simp [mdel, mget, h1, h2, Ne.symm h2, h4, ih]
    · by_cases h2 : p.1 = k'
      · have hk : ¬ k' = k := fun hh => h1 (h2.trans hh)
        simp [mdel, mget, h1, h2, hk]
      · simp [mdel, mget, h1, h2, ih]

theorem mem_keys_mset {α : Type} (m : List (String × α)) (k x : String) (v : α) :
    x ∈ (mset m k v).map Prod.fst ↔ x = k ∨ x ∈ m.map Prod.fst := by
  induction m with
  | nil => simp [mset]
  | cons p m ih =>
    by_cases h1 : p.1 = k
    · subst h1
      by_cases h2 : x = p.1 <;> simp [mset, h2]
    · by_cases h2 : x = p.1 <;> simp [mset, h1, h2, ih]

theorem mdel_sublist {α : Type} (m : List (String × α)) (k : String) :
    (mdel m k).Sublist m := by
  induction m with
  | nil => simp [mdel]
  | cons p m ih =>
    by_cases h1 : p.1 = k
    · simp [mdel, h1]
      exact ih.cons p
    · simp [mdel, h1]
      exact ih

theorem nodup_keys_mset {α : Type} (m : List (String × α)) (k : String) (v : α)
    (h : (m.map Prod.fst).Nodup) : ((mset m k v).map Prod.fst).Nodup := by
  induction m with
  | nil => simp [mset]
  | cons p m ih =>
    rw [List.map_cons, List.nodup_cons] at h
    by_cases h1 : p.1 = k
    · subst h1
      rw [show mset (p :: m) p.1 v = (p.1, v) :: m from by simp [mset]]
      rw [List.map_cons, List.nodup_cons]
      exact h
    · have hnotin : p.1 ∉ (mset m k v).map Prod.fst := by
        intro hmem
        rcases (mem_keys_mset m k p.1 v).mp hmem with h2 | h2
        · exact h1 h2
        · exact h.1 h2
      rw [show mset (p :: m) k v = p :: mset m k v from by simp [mset, h1]]
      rw [List.map_cons, List.nodup_cons]
      exact ⟨hnotin, ih h.2⟩

theorem nodup_keys_mdel {α : Type} (m : List (String × α)) (k : String)
    (h : (m.map Prod.fst).Nodup) : ((mdel m k).map Prod.fst).Nodup :=
  ((mdel_sublist m k).map Prod.fst).nodup h

theorem mem_of_mem_mset {α : Type} {m : List (String × α)} {k : String} {v : α}
    {q : String × α} (hq : q ∈ mset m k v) : q = (k, v) ∨ q ∈ m := by
  induction m with
  | nil => simpa [mset] using hq
  | cons p rest ih =>
    by_cases h1 : p.1 = k
    · rw [show mset (p :: rest) k v = (k, v) :: rest from by simp [mset, h1]] at hq
      rcases List.mem_cons.mp hq with h | h
      · exact Or.inl h
      · exact Or.inr (List.mem_cons_of_mem p h)
    · rw [show mset (p :: rest) k v = p :: mset rest k v from by simp [mset, h1]] at hq
      rcases List.mem_cons.mp hq with h | h
      · exact Or.inr (h ▸ List.mem_cons_self p rest)
      · rcases ih h with h2 | h2
        · exact Or.inl h2
        · exact Or.inr (List.mem_cons_of_mem p h2)

theorem mem_of_mem_mdel {α : Type} {m : List (String × α)} {k : String}
    {q : String × α} (hq : q ∈ mdel m k) : q ∈ m :=
  (mdel_sublist m k).subset hq

/-- After upserting an entry whose `task_id` is its key into a well-keyed
index, the values carry exactly one entry with that `task_id`. -/
theorem length_filter_mset_values (idx : List (String × IndexEntry)) (t : String)
    (en : IndexEntry) (hnd : (idx.map Prod.fst).Nodup)
    (hk : ∀ p ∈ idx, p.2.task_id = p.1) (he : en.task_id = t) :
    (((mset idx t en).map Prod.snd).filter (fun x => x.task_id == t)).length = 1 := by
  induction idx with
  | nil => simp [mset, he]
  | cons p rest ih =>
    rw [List.map_cons, List.nodup_cons] at hnd
    by_cases h1 : p.1 = t
    · have hrest : ∀ x ∈ rest.map Prod.snd, ¬ (x.task_id == t) = true := by
        intro x hx hxt
        rcases List.mem_map.mp hx with ⟨q, hq, hqx⟩
        have hkey := hk q (List.mem_cons_of_mem p hq)
        have hxq : x.task_id = q.1 := by rw [← hqx, hkey]
        have hq1 : q.1 = t := by rw [← hxq]; exact beq_iff_eq.mp hxt
        exact hnd.1 (by rw [h1, ← hq1]; exact List.mem_map_of_mem Prod.fst hq)
      rw [show mset (p :: rest) t en = (t, en) :: rest from by simp [mset, h1]]
      rw [List.map_cons, List.filter_cons]
      simp only [he, beq_self_eq_true, if_pos]
      rw [List.filter_eq_nil_iff.mpr (by intro a ha; exact hrest a ha)]
      rfl
    · rw [show mset (p :: rest) t en = p :: mset rest t en from by simp [mset, h1]]
      have hp : ¬ (p.2.task_id == t) = true := by
        have := hk p (List.mem_cons_self p rest)
        simp [this, h1]
      rw [List.map_cons, List.filter_cons, if_neg hp]
      exact ih hnd.2 (fun q hq => hk q (List.mem_cons_of_mem p hq))

/-! ## Claims about the state store -/

/-- C8: `save_state(t, state)` raises the validation error exactly when
`state` lacks a `user_id` key; on success it stores the state with
`task_id` and a current `saved_at` stamped in (all other keys of the
caller's mapping untouched), upserts the index entry for the state's user
with the projection `{task_id, agent_type (default "unknown"), status
(default "paused"), saved_at}`, and `list_paused_tasks` for that user then
contains exactly one entry with `task_id = t`. -/
theorem save_state_contract (st : Store) (t : String) (state : Dict)
    (hwf : ∀ u, ((load_user_index st u).map Prod.fst).Nodup ∧
      ∀ p ∈ load_user_index st u, p.2.task_id = p.1) :
    (mget state "user_id" = none →
      save_state st t state = .error "State must include \x27user_id\x27 field") ∧
    (∀ uv, mget state "user_id" = some uv →
      ∃ st', save_state st t state = .ok st' ∧
        load_state st' t =
          some (mset (mset state "task_id" (Val.str t)) "saved_at" (Val.time st.clock)) ∧
        (∀ k, k ≠ "task_id" → k ≠ "saved_at" →
          mget (mset (mset state "task_id" (Val.str t)) "saved_at" (Val.time st.clock)) k
            = mget state k) ∧
        mget (load_user_index st' (valKey uv)) t = some
          ⟨t, dgetD state "agent_type" (Val.str "unknown"),
            dgetD state "status" (Val.str "paused"), Val.time st.clock⟩ ∧
        ((list_paused_tasks st' (valKey uv)).filter (fun en => en.task_id == t)).length = 1) := by
  constructor
  · intro h
    simp [save_state, h]
  · intro uv huv
    have hok : save_state st t state = .ok
        { states := mset st.states t
            (mset (mset state "task_id" (Val.str t)) "saved_at" (Val.time st.clock)),
          indexes := mset st.indexes (valKey uv)
            (mset (load_user_index st (valKey uv)) t
              ⟨t, dgetD state "agent_type" (Val.str "unknown"),
                dgetD state "status" (Val.str "paused"), Val.time st.clock⟩),
          clock := st.clock + 1 } := by
      simp [save_state, huv]
    refine ⟨_, hok, ?_, ?_, ?_, ?_⟩
    · simp [load_state, mget_mset]
    · intro k hk1 hk2
      rw [mget_mset, mget_mset]
      simp [hk1, hk2]
    · simp [load_user_index, mget_mset]
    · have hcount := length_filter_mset_values (load_user_index st (valKey uv)) t
        ⟨t, dgetD state "agent_type" (Val.str "unknown"),
          dgetD state "status" (Val.str "paused"), Val.time st.clock⟩
        (hwf (valKey uv)).1 (hwf (valKey uv)).2 rfl
      simpa [list_paused_tasks, load_user_index, mget_mset] using hcount

/-- Witness for C8 at the empty store: the save succeeds and the paused
task listing holds exactly one entry for the task. -/
theorem save_state_contract_witness :
    ∃ st', save_state emptyStore "t1" [("user_id", Val.str "u")] = .ok st' ∧
      ((list_paused_tasks st' "u").filter (fun en => en.task_id == "t1")).length = 1 := by
  obtain ⟨st', hok, _, _, _, hcount⟩ :=
    (save_state_contract emptyStore "t1" [("user_id", Val.str "u")]
      (by intro u; simp [load_user_index, emptyStore, mget])).2 (Val.str "u") (by decide)
  exact ⟨st', hok, by simpa [valKey] using hcount⟩

/-- C10: `update_task_status(t, s)` on an existing (well-formed) record
rewrites `status` and stamps a fresh `updated_at`, leaving every other
user-visible key — in particular `current_step`, `total_steps`, `user_id`,
`agent_type` and `context` — unchanged; on a missing task it returns the
store untouched (no record created, no index changed). -/
theorem update_task_status_contract (st : Store) (t s : String) :
    (load_state st t = none → update_task_status st t s = .ok st) ∧
    (∀ r uv, load_state st t = some r → mget r "user_id" = some uv →
      ∃ st' r', update_task_status st t s = .ok st' ∧ load_state st' t = some r' ∧
        mget r' "status" = some (Val.str s) ∧
        mget r' "updated_at" = some (Val.time st.clock) ∧
        (∀ k, k ≠ "status" → k ≠ "updated_at" → k ≠ "task_id" → k ≠ "saved_at" →
          mget r' k = mget r k) ∧
        mget r' "current_step" = mget r "current_step" ∧
        mget r' "total_steps" = mget r "total_steps" ∧
        mget r' "user_id" = mget r "user_id" ∧
        mget r' "agent_type" = mget r "agent_type" ∧
        mget r' "context" = mget r "context") := by
  constructor
  · intro h
    simp [update_task_status, h]
  · intro r uv hr huv
    have hr1u : mget (mset (mset r "status" (Val.str s)) "updated_at" (Val.time st.clock))
        "user_id" = some uv := by
      rw [mget_mset, mget_mset]
      simp [huv]
    have hok : update_task_status st t s = .ok
        { states := mset st.states t
            (mset (mset (mset (mset r "status" (Val.str s)) "updated_at" (Val.time st.clock))
              "task_id" (Val.str t)) "saved_at" (Val.time (st.clock + 1))),
          indexes := mset st.indexes (valKey uv)
            (mset (load_user_index st (valKey uv)) t
              ⟨t, dgetD (mset (mset r "status" (Val.str s)) "updated_at" (Val.time st.clock))
                  "agent_type" (Val.str "unknown"),
                dgetD (mset (mset r "status" (Val.str s)) "updated_at" (Val.time st.clock))
                  "status" (Val.str "paused"), Val.time (st.clock + 1)⟩),
          clock := st.clock + 1 + 1 } := by
      simp [update_task_status, hr, save_state, hr1u, load_user_index]
    have hframe : ∀ k,
        mget (mset (mset (mset (mset r "status" (Val.str s)) "updated_at" (Val.time st.clock))
          "task_id" (Val.str t)) "saved_at" (Val.time (st.clock + 1))) k =
        if k = "saved_at" then some (Val.time (st.clock + 1))
        else if k = "task_id" then some (Val.str t)
        else if k = "updated_at" then some (Val.time st.clock)
        else if k = "status" then some (Val.str s)
        else mget r k := by
      intro k
      rw [mget_mset, mget_mset, mget_mset, mget_mset]
    refine ⟨_, mset (mset (mset (mset r "status" (Val.str s)) "updated_at" (Val.time st.clock))
        "task_id" (Val.str t)) "saved_at" (Val.time (st.clock + 1)),
      hok, by simp [load_state, mget_mset], ?_, ?_, ?_, ?_, ?_, ?_, ?_, ?_⟩
    · rw [hframe]; simp
    · rw [hframe]; simp
    · intro k hk1 hk2 hk3 hk4
      rw [hframe]
      simp [hk1, hk2, hk3, hk4]
    · rw [hframe]; simp
    · rw [hframe]; simp
    · rw [hframe]; simp
    · rw [hframe]; simp
    · rw [hframe]; simp

/-- Witness for C10: the no-op branch at the empty store and the update
branch on a one-record store. -/
theorem update_task_status_contract_witness :
    (update_task_status emptyStore "t" "done" = .ok emptyStore) ∧
    (∃ st' r', update_task_status store1 "t1" "completed" = .ok st' ∧
      load_state st' "t1" = some r' ∧
      mget r' "status" = some (Val.str "completed") ∧
      mget r' "user_id" = some (Val.str "u")) := by
  constructor
  · exact (update_task_status_contract emptyStore "t" "done").1 rfl
  · obtain ⟨st', r', hok, hload, hstat, _, _, _, _, huser, _, _⟩ :=
      (update_task_status_contract store1 "t1" "completed").2
        [("user_id", Val.str "u"), ("task_id", Val.str "t1"), ("saved_at", Val.time 0)]
        (Val.str "u") (by decide) (by decide)
    exact ⟨st', r', hok, hload, hstat, by rw [huser]; decide⟩

/-! ## Preservation of the index-consistency invariant -/

theorem inv_emptyStore : Inv emptyStore := by
  refine ⟨?_, ?_, ?_, ?_⟩ <;> simp [load_state, load_user_index, emptyStore, mget]

/-- A successful `save_state` that does not change the user of an existing
record preserves the index-consistency invariant. -/
theorem inv_save_core (st : Store) (t : String) (state : Dict) (st' : Store)
    (hInv : Inv st)
    (hstable : ∀ r, load_state st t = some r → mget r "user_id" = mget state "user_id")
    (hok : save_state st t state = .ok st') : Inv st' := by
  obtain ⟨h1, h2, h3, h4⟩ := hInv
  cases huv : mget state "user_id" with
  | none => simp [save_state, huv] at hok
  | some uv =>
    set swm := mset (mset state "task_id" (Val.str t)) "saved_at" (Val.time st.clock) with hswm
    set en : IndexEntry := ⟨t, dgetD state "agent_type" (Val.str "unknown"),
      dgetD state "status" (Val.str "paused"), Val.time st.clock⟩ with hen
    set u := valKey uv with hu
    set idx := load_user_index st u with hidx
    have hst' : st' =
        { states := mset st.states t swm,
          indexes := mset st.indexes u (mset idx t en),
          clock := st.clock + 1 } := by
      have h5 := hok
      simp only [save_state, huv] at h5
      injection h5 with h5
      exact h5.symm
    have hSt : st'.states = mset st.states t swm := by rw [hst']
    have hIx : st'.indexes = mset st.indexes u (mset idx t en) := by rw [hst']
    have hswmk : ∀ k, mget swm k =
        if k = "saved_at" then some (Val.time st.clock)
        else if k = "task_id" then some (Val.str t)
        else mget state k := by
      intro k
      rw [hswm, mget_mset, mget_mset]
    have hswm_user : mget swm "user_id" = some uv := by
      rw [hswmk]; simp [huv]
    have hswm_at : dgetD swm "agent_type" (Val.str "unknown")
        = dgetD state "agent_type" (Val.str "unknown") := by
      unfold dgetD; rw [hswmk]; simp
    have hswm_st : dgetD swm "status" (Val.str "paused")
        = dgetD state "status" (Val.str "paused") := by
      unfold dgetD; rw [hswmk]; simp
    have hswm_sa : mget swm "saved_at" = some (Val.time st.clock) := by
      rw [hswmk]; simp
    have hload : ∀ t', load_state st' t' = if t' = t then some swm else load_state st t' := by
      intro t'
      simp only [load_state, hSt, mget_mset]
    have hui : ∀ u', load_user_index st' u' =
        if u' = u then mset idx t en else load_user_index st u' := by
      intro u'
      simp only [load_user_index, hIx, mget_mset]
      by_cases hu' : u' = u <;> simp [hu', hidx, load_user_index]
    refine ⟨?_, ?_, ?_, ?_⟩
    · intro t' r hr
      rw [hload] at hr
      by_cases ht : t' = t
      · rw [if_pos ht] at hr
        injection hr with hr
        exact ⟨uv, hr ▸ hswm_user⟩
      · rw [if_neg ht] at hr
        exact h1 t' r hr
    · intro u' t' e' he'
      rw [hui] at he'
      by_cases hu' : u' = u
      · rw [if_pos hu'] at he'
        rw [mget_mset] at he'
        by_cases ht : t' = t
        · rw [if_pos ht] at he'
          injection he' with he'
          refine ⟨swm, uv, by rw [hload, if_pos ht], hswm_user, by rw [← hu, hu'], ?_⟩
          refine ⟨?_, ?_, ?_, ?_⟩
          · rw [← he', hen, ht]
          · rw [← he', hen]
            exact hswm_at.symm
          · rw [← he', hen]
            exact hswm_st.symm
          · rw [← he', hen]
            exact hswm_sa
        · rw [if_neg ht] at he'
          rw [hidx] at he'
          obtain ⟨r, uv₂, hr, hru, hvk, hag⟩ := h2 u t' e' he'
          refine ⟨r, uv₂, by rw [hload, if_neg ht]; exact hr, hru, by rw [hvk]; exact hu'.symm, hag⟩
      · rw [if_neg hu'] at he'
        obtain ⟨r, uv₂, hr, hru, hvk, hag⟩ := h2 u' t' e' he'
        by_cases ht : t' = t
        · exfalso
          rw [ht] at hr
          have h5 := hstable r hr
          rw [hru, huv] at h5
          injection h5 with h5
          apply hu'
          rw [← hvk, h5]
        · exact ⟨r, uv₂, by rw [hload, if_neg ht]; exact hr, hru, hvk, hag⟩
    · intro t' r uv₂ hr hru
      rw [hload] at hr
      by_cases ht : t' = t
      · rw [if_pos ht] at hr
        injection hr with hr
        have h5 : mget r "user_id" = some uv := hr ▸ hswm_user
        rw [hru] at h5
        injection h5 with h5
        refine ⟨en, ?_⟩
        rw [hui, h5, ← hu]
        simp [mget_mset, ht]
      · rw [if_neg ht] at hr
        obtain ⟨e, he⟩ := h3 t' r uv₂ hr hru
        rw [hui]
        by_cases hku : valKey uv₂ = u
        · refine ⟨e, ?_⟩
          rw [if_pos hku, mget_mset, if_neg ht, hidx]
          rw [hku] at he
          exact he
        · exact ⟨e, by rw [if_neg hku]; exact he⟩
    · intro u'
      rw [hui]
      by_cases hu' : u' = u
      · rw [if_pos hu']
        constructor
        · exact nodup_keys_mset _ _ _ (by rw [hidx]; exact (h4 u).1)
        · intro p hp
          rcases mem_of_mem_mset hp with h | h
          · rw [h, hen]
          · exact (h4 u).2 p (by rw [← hidx]; exact h)
      · rw [if_neg hu']
        exact h4 u'

/-- `delete_state` preserves the index-consistency invariant. -/
theorem inv_delete_state (st : Store) (t : String) (hInv : Inv st) :
    Inv (delete_state st t) := by
  obtain ⟨h1, h2, h3, h4⟩ := hInv
  cases hr : load_state st t with
  | none =>
    have hd : delete_state st t = { st with states := mdel st.states t } := by
      simp [delete_state, hr]
    rw [hd]
    have hload : ∀ t', load_state { st with states := mdel st.states t } t' =
        if t' = t then none else load_state st t' := by
      intro t'
      simp only [load_state, mget_mdel]
    have hui : ∀ u', load_user_index { st with states := mdel st.states t } u' =
        load_user_index st u' := by
      intro u'
      simp [load_user_index]
    refine ⟨?_, ?_, ?_, ?_⟩
    · intro t' r hrr
      rw [hload] at hrr
      by_cases ht : t' = t
      · rw [if_pos ht] at hrr; cases hrr
      · rw [if_neg ht] at hrr; exact h1 t' r hrr
    · intro u' t' e he
      rw [hui] at he
      obtain ⟨r, uv, hr2, hru, hvk, hag⟩ := h2 u' t' e he
      by_cases ht : t' = t
      · exfalso
        rw [ht, hr] at hr2
        cases hr2
      · exact ⟨r, uv, by rw [hload, if_neg ht]; exact hr2, hru, hvk, hag⟩
    · intro t' r uv hr2 hru
      rw [hload] at hr2
      by_cases ht : t' = t
      · rw [if_pos ht] at hr2; cases hr2
      · rw [if_neg ht] at hr2
        obtain ⟨e, he⟩ := h3 t' r uv hr2 hru
        exact ⟨e, by rw [hui]; exact he⟩
    · intro u'
      rw [hui]
      exact h4 u'
  | some r =>
    obtain ⟨uv, huv⟩ := h1 t r hr
    obtain ⟨e0, he0⟩ := h3 t r uv hr huv
    have he0' : mget ((mget st.indexes (valKey uv)).getD []) t = some e0 := he0
    have hd : delete_state st t =
        { states := mdel st.states t,
          indexes := mset st.indexes (valKey uv) (mdel (load_user_index st (valKey uv)) t),
          clock := st.clock } := by
      simp [delete_state, hr, huv, load_user_index, he0']
    rw [hd]
    have hload : ∀ t', load_state
        { states := mdel st.states t,
          indexes := mset st.indexes (valKey uv) (mdel (load_user_index st (valKey uv)) t),
          clock := st.clock } t' = if t' = t then none else load_state st t' := by
      intro t'
      simp only [load_state, mget_mdel]
    have hui : ∀ u', load_user_index
        { states := mdel st.states t,
          indexes := mset st.indexes (valKey uv) (mdel (load_user_index st (valKey uv)) t),
          clock := st.clock } u' =
        if u' = valKey uv then mdel (load_user_index st (valKey uv)) t
        else load_user_index st u' := by
      intro u'
      simp only [load_user_index, mget_mset]
      by_cases hu' : u' = valKey uv <;> simp [hu', load_user_index]
    refine ⟨?_, ?_, ?_, ?_⟩
    · intro t' r' hr'
      rw [hload] at hr'
      by_cases ht : t' = t
      · rw [if_pos ht] at hr'; cases hr'
      · rw [if_neg ht] at hr'; exact h1 t' r' hr'
    · intro u' t' e he
      rw [hui] at he
      by_cases hu' : u' = valKey uv
      · rw [if_pos hu'] at he
        rw [mget_mdel] at he
        by_cases ht : t' = t
        · rw [if_pos ht] at he; cases he
        · rw [if_neg ht] at he
          obtain ⟨r2, uv2, hr2, hru2, hvk2, hag2⟩ := h2 (valKey uv) t' e he
          exact ⟨r2, uv2, by rw [hload, if_neg ht]; exact hr2, hru2,
            by rw [hvk2]; exact hu'.symm, hag2⟩
      · rw [if_neg hu'] at he
        obtain ⟨r2, uv2, hr2, hru2, hvk2, hag2⟩ := h2 u' t' e he
        by_cases ht : t' = t
        · exfalso
          rw [ht, hr] at hr2
          injection hr2 with h6
          rw [← h6, huv] at hru2
          injection hru2 with h7
          apply hu'
          rw [← hvk2, ← h7]
        · exact ⟨r2, uv2, by rw [hload, if_neg ht]; exact hr2, hru2, hvk2, hag2⟩
    · intro t' r' uv' hr' hru'
      rw [hload] at hr'
      by_cases ht : t' = t
      · rw [if_pos ht] at hr'; cases hr'
      · rw [if_neg ht] at hr'
        obtain ⟨e, he⟩ := h3 t' r' uv' hr' hru'
        rw [hui]
        by_cases hku : valKey uv' = valKey uv
        · refine ⟨e, ?_⟩
          rw [if_pos hku, mget_mdel, if_neg ht]
          rw [hku] at he
          exact he
        · exact ⟨e, by rw [if_neg hku]; exact he⟩
    · intro u'
      rw [hui]
      by_cases hu' : u' = valKey uv
      · rw [if_pos hu']
        refine ⟨nodup_keys_mdel _ _ (h4 (valKey uv)).1, ?_⟩
        intro p hp
        exact (h4 (valKey uv)).2 p (mem_of_mem_mdel hp)
      · rw [if_neg hu']
        exact h4 u'

/-- `update_task_status` preserves the index-consistency invariant. -/
theorem inv_update_task_status (st : Store) (t s : String) (hInv : Inv st) :
    Inv (execOp st (.upd t s)) := by
  obtain ⟨sts, idxs, ck⟩ := st
  cases hr : load_state ⟨sts, idxs, ck⟩ t with
  | none =>
    have hexec : execOp ⟨sts, idxs, ck⟩ (.upd t s) = ⟨sts, idxs, ck⟩ := by
      simp [execOp, update_task_status, hr]
    rw [hexec]
    exact hInv
  | some r =>
    obtain ⟨uv, huv⟩ := hInv.1 t r hr
    have hr1u : mget (mset (mset r "status" (Val.str s)) "updated_at" (Val.time ck))
        "user_id" = some uv := by
      rw [mget_mset, mget_mset]
      simp [huv]
    have hok : update_task_status ⟨sts, idxs, ck⟩ t s =
        save_state ⟨sts, idxs, ck + 1⟩ t
          (mset (mset r "status" (Val.str s)) "updated_at" (Val.time ck)) := by
      simp [update_task_status, hr]
    cases hsv : save_state ⟨sts, idxs, ck + 1⟩ t
        (mset (mset r "status" (Val.str s)) "updated_at" (Val.time ck)) with
    | error e =>
      simp [save_state, hr1u] at hsv
    | ok st' =>
      have hexec : execOp ⟨sts, idxs, ck⟩ (.upd t s) = st' := by
        simp [execOp, hok, hsv]
      rw [hexec]
      apply inv_save_core ⟨sts, idxs, ck + 1⟩ t _ st' hInv ?_ hsv
      intro r₂ hr₂
      have hr₂' : load_state (⟨sts, idxs, ck⟩ : Store) t = some r₂ := hr₂
      rw [hr] at hr₂'
      injection hr₂' with h6
      rw [← h6, hr1u, ← h6] at *
      rw [hr1u]
      rw [h6, huv]

/-- Any single operation preserves the invariant, provided a save step is
user-stable. -/
theorem inv_execOp (st : Store) (op : Op) (hInv : Inv st)
    (hs : stableStep st op = true) : Inv (execOp st op) := by
  cases op with
  | save t state =>
    cases hok : save_state st t state with
    | ok st' =>
      have hexec : execOp st (.save t state) = st' := by simp [execOp, hok]
      rw [hexec]
      apply inv_save_core st t state st' hInv ?_ hok
      intro r hr
      simp only [stableStep, hr] at hs
      exact eq_of_beq hs
    | error e =>
      have hexec : execOp st (.save t state) = st := by simp [execOp, hok]
      rw [hexec]
      exact hInv
  | del t =>
    exact inv_delete_state st t hInv
  | upd t s =>
    exact inv_update_task_status st t s hInv

/-- C9 (amended): for every finite sequence of `save_state`,
`delete_state` and `update_task_status` operations starting from the empty
store in which no save overwrites an existing record with a different
`user_id`, the per-user index is exactly the projection of the stored
TaskState records: for every user, the indexed task ids are the task ids
of that user's stored records, and each index entry agrees with its record
on `agent_type`, `status` (with the save-time defaults) and `saved_at`. -/
theorem index_consistency_under_stable_ops (ops : List Op)
    (hstable : stableSeq emptyStore ops = true) :
    Inv (execOps emptyStore ops) := by
  suffices h : ∀ l st, Inv st → stableSeq st l = true → Inv (execOps st l) from
    h ops emptyStore inv_emptyStore hstable
  intro l
  induction l with
  | nil =>
    intro st h _
    exact h
  | cons op rest ih =>
    intro st hInv hs
    rw [stableSeq, Bool.and_eq_true] at hs
    exact ih (execOp st op) (inv_execOp st op hInv hs.1) hs.2

/-- Witness for C9 on a concrete stable sequence: a save followed by a
status update keeps the invariant. -/
theorem index_consistency_witness :
    Inv (execOps emptyStore
      [.save "t1" [("user_id", Val.str "u")], .upd "t1" "completed"]) :=
  index_consistency_under_stable_ops
    [.save "t1" [("user_id", Val.str "u")], .upd "t1" "completed"] (by decide)

/-- C9 counterexample to the unrestricted claim: re-saving task `t1` under
a different user leaves `u1`'s index pointing at `t1` although the only
stored record for `t1` now belongs to `u2`, so `u1`'s indexed task ids are
not the task ids of `u1`'s records. -/
theorem index_consistency_counterexample :
    (mget (load_user_index (execOps emptyStore divergeOps) "u1") "t1").isSome = true ∧
    ((execOps emptyStore divergeOps).states.map
      (fun p => (p.1, mget p.2 "user_id"))) = [("t1", some (Val.str "u2"))] ∧
    list_paused_tasks (execOps emptyStore divergeOps) "u1" ≠ [] := by
  decide

/-! ## Claims about the orchestrator -/

/-- C1: `classify` lower-cases the message and tests the three fixed
keyword sets by substring presence; no present set gives `ambiguous`, a
unique present set gives that domain's intent, two or more give
`multi_domain`. -/
theorem parse_intent_classification (message : String) :
    (parse_intent message = "ambiguous" ↔
      mealPresent message = false ∧ shoppingPresent message = false ∧
        travelPresent message = false) ∧
    (mealPresent message = true → shoppingPresent message = false →
      travelPresent message = false → parse_intent message = "meal_planning") ∧
    (mealPresent message = false → shoppingPresent message = true →
      travelPresent message = false → parse_intent message = "shopping") ∧
    (mealPresent message = false → shoppingPresent message = false →
      travelPresent message = true → parse_intent message = "travel") ∧
    (2 ≤ (if mealPresent message then 1 else 0) + (if shoppingPresent message then 1 else 0)
        + (if travelPresent message then 1 else 0) →
      parse_intent message = "multi_domain") := by
  cases hm : mealPresent message <;> cases hs : shoppingPresent message <;>
    cases ht : travelPresent message <;>
    simp [parse_intent, hm, hs, ht]

/-- Witness for C1 on concrete messages of each shape. -/
theorem parse_intent_classification_witness :
    parse_intent "Plan a trip to Tokyo" = "travel" ∧
    parse_intent "hello there" = "ambiguous" := by
  constructor
  · exact (parse_intent_classification "Plan a trip to Tokyo").2.2.2.1
      (by decide) (by decide) (by decide)
  · exact (parse_intent_classification "hello there").1.mpr (by decide)

/-- C2 (amended): the response envelope has exactly the keys `response`,
`intent`, `data`, `session_id` on every non-ambiguous path, but only
`response`, `intent`, `requires_clarification` on the ambiguous path. -/
theorem process_message_envelope_keys (ag : Agents) (prefsOf : String → Prefs) (today : Nat)
    (w : World) (user_id message : String) (sessionArg : Option String) :
    ((process_message ag prefsOf today w user_id message sessionArg).1).map Prod.fst =
      if parse_intent message = "ambiguous" then
        ["response", "intent", "requires_clarification"]
      else ["response", "intent", "data", "session_id"] := by
  rcases sessionArg with _ | s
  · by_cases hi : parse_intent message = "ambiguous" <;>
      simp [process_message, create_session, hi]
  · by_cases hs : s = "" <;> by_cases hi : parse_intent message = "ambiguous" <;>
      simp [process_message, create_session, hs, hi]

/-- C2 counterexample: on the ambiguous path the envelope carries neither
`data` nor `session_id`. -/
theorem process_message_keys_counterexample :
    ((process_message demoAgents (fun _ => []) 0 emptyWorld "u" "hello there" none).1).map
        Prod.fst = ["response", "intent", "requires_clarification"] ∧
    "data" ∉ ((process_message demoAgents (fun _ => []) 0 emptyWorld "u" "hello there"
        none).1).map Prod.fst ∧
    "session_id" ∉ ((process_message demoAgents (fun _ => []) 0 emptyWorld "u" "hello there"
        none).1).map Prod.fst := by
  decide

/-- C3 (amended): on an ambiguous message `process_message` returns the
fixed clarification envelope; with a supplied non-empty session id the
session store is untouched, and with no session id the only mutation is
the creation of a fresh empty session (no message pair is appended
anywhere). -/
theorem ambiguous_short_circuit (ag : Agents) (prefsOf : String → Prefs) (today : Nat)
    (w : World) (user_id message : String)
    (h : parse_intent message = "ambiguous") :
    (∀ sessionArg, (process_message ag prefsOf today w user_id message sessionArg).1 =
      [("response", .strV (generate_clarifying_questions message)),
       ("intent", .strV "ambiguous"),
       ("requires_clarification", .boolV true)]) ∧
    (∀ s, s ≠ "" →
      (process_message ag prefsOf today w user_id message (some s)).2 = w) ∧
    (process_message ag prefsOf today w user_id message none).2 =
      (create_session w user_id prefsOf).2 := by
  refine ⟨?_, ?_, ?_⟩
  · intro sessionArg
    rcases sessionArg with _ | s
    · simp [process_message, create_session, h]
    · by_cases hs : s = "" <;> simp [process_message, create_session, h, hs]
  · intro s hs
    simp [process_message, h, hs]
  · simp [process_message, create_session, h]

/-- Witness for C3: the scenario message with a supplied session id leaves
the store untouched. -/
theorem ambiguous_short_circuit_witness :
    (process_message demoAgents (fun _ => []) 0 emptyWorld "u" "hello there"
      (some "sid")).2 = emptyWorld :=
  (ambiguous_short_circuit demoAgents (fun _ => []) 0 emptyWorld "u" "hello there"
    (by decide)).2.1 "sid" (by decide)

/-- C3 counterexample: with no session id supplied, the ambiguous path
does mutate the session store — a fresh (empty, orphaned) session is
created before the intent check. -/
theorem ambiguous_short_circuit_counterexample :
    parse_intent "hello there" = "ambiguous" ∧
    (process_message demoAgents (fun _ => []) 0 emptyWorld "u" "hello there"
      none).2.sessions ≠ emptyWorld.sessions := by
  decide

/-- C4 (amended): a travel route with no extractable destination asks for
clarification with `success=false`; otherwise the travel agent is always
called with the fixed default window (days `today+30` to `today+37`) and
budget `2000` — the call ignores any date or budget override carried in
the caller's context. -/
theorem travel_route_contract (ag : Agents) (today : Nat) (context : Ctx) :
    (extract_destination context.message = none →
      route_to_agent ag today "travel" context =
        mkRes false none "Please specify a destination for your trip") ∧
    (∀ destination, extract_destination context.message = some destination →
      route_to_agent ag today "travel" context =
        match ag.plan_trip context.user_id destination (today + 30, today + 30 + 7) 2000
            context.preferences with
        | .ok trip_plan =>
          mkRes true (some (.tripD trip_plan)) ("Created trip plan for " ++ destination)
        | .error e => mkRes false none ("Error processing request: " ++ e)) := by
  constructor
  · intro h
    rw [route_to_agent.eq_def]
    simp [h]
  · intro destination h
    rw [route_to_agent.eq_def]
    simp [h]

/-- Witness for C4: both branches at concrete messages. -/
theorem travel_route_contract_witness :
    route_to_agent demoAgents 0 "travel" (ctxOf "go somewhere nice") =
      mkRes false none "Please specify a destination for your trip" ∧
    route_to_agent demoAgents 0 "travel" (ctxOf "Plan a trip to Tokyo") =
      mkRes true (some (.tripD ⟨7, "Tokyo", "Grand Hotel", 2000⟩))
        "Created trip plan for Tokyo" := by
  constructor
  · exact (travel_route_contract demoAgents 0 (ctxOf "go somewhere nice")).1 (by decide)
  · have h := (travel_route_contract demoAgents 0 (ctxOf "Plan a trip to Tokyo")).2
      "Tokyo" (by decide)
    simpa [demoAgents, ctxOf] using h

/-- C4 counterexample to the override clause: a context carrying date and
budget overrides still produces a travel-agent call with the defaults
(the probe agent records `100 * start + end` and the budget it was
given). -/
theorem travel_route_overrides_counterexample :
    (ctxOverride "Plan a trip to Tokyo").datesOverride = some (1, 2) ∧
    (ctxOverride "Plan a trip to Tokyo").budgetOverride = some 999 ∧
    tripDaysOf (route_to_agent probeAgents 0 "travel" (ctxOverride "Plan a trip to Tokyo")) =
      some 3037 ∧
    tripCostOf (route_to_agent probeAgents 0 "travel" (ctxOverride "Plan a trip to Tokyo")) =
      some 2000 := by
  have hd : extract_destination "Plan a trip to Tokyo" = some "Tokyo" := by decide
  refine ⟨rfl, rfl, ?_, ?_⟩ <;>
  · rw [route_to_agent.eq_def]
    simp [ctxOverride, probeAgents, hd, tripDaysOf, tripCostOf, rData, mkRes]

/-- C5: a `multi_domain` route always aggregates with `success=true` and
the fixed message, and its data is the list of exactly one sub-route
result per domain whose narrow word test (`meal`, `shop`, `travel`/`trip`)
matches the lowered message, in the fixed order meal, shopping, travel. -/
theorem multi_domain_route_contract (ag : Agents) (today : Nat) (context : Ctx) :
    rSuccess (route_to_agent ag today "multi_domain" context) = true ∧
    rMsg (route_to_agent ag today "multi_domain" context) = "Completed multi-domain request" ∧
    rData (route_to_agent ag today "multi_domain" context) = some (.listD (
      (if strIn "meal" (pyLower context.message) then
        [route_to_agent ag today "meal_planning" context] else []) ++
      (if strIn "shop" (pyLower context.message) then
        [route_to_agent ag today "shopping" context] else []) ++
      (if strIn "travel" (pyLower context.message) || strIn "trip" (pyLower context.message) then
        [route_to_agent ag today "travel" context] else []))) := by
  have h : route_to_agent ag today "multi_domain" context = mkRes true (some (.listD (
      (if strIn "meal" (pyLower context.message) then
        [route_to_agent ag today "meal_planning" context] else []) ++
      (if strIn "shop" (pyLower context.message) then
        [route_to_agent ag today "shopping" context] else []) ++
      (if strIn "travel" (pyLower context.message) || strIn "trip" (pyLower context.message) then
        [route_to_agent ag today "travel" context] else []))))
      "Completed multi-domain request" := by
    rw [route_to_agent.eq_def]
    simp
  exact ⟨by rw [h]; rfl, by rw [h]; rfl, by rw [h]; rfl⟩

/-- C6: any exception a domain agent raises during routing is caught and
converted to a `success=false` result with a descriptive message; the
route function is total, so no agent fault ever propagates to the caller. -/
theorem route_errors_contained (ag : Agents) (today : Nat) (context : Ctx) (e : String) :
    (ag.generate_meal_plan context.user_id (pyOrNat (extract_days context.message) 7)
        context.preferences = .error e →
      route_to_agent ag today "meal_planning" context =
        mkRes false none ("Error processing request: " ++ e)) ∧
    (∀ destination, extract_destination context.message = some destination →
      ag.plan_trip context.user_id destination (today + 30, today + 30 + 7) 2000
          context.preferences = .error e →
      route_to_agent ag today "travel" context =
        mkRes false none ("Error processing request: " ++ e)) := by
  constructor
  · intro h
    rw [route_to_agent.eq_def]
    simp [h]
  · intro destination hd h
    rw [route_to_agent.eq_def]
    simp [hd, h]

/-- Witness for C6: raising agents yield failure results on both
agent-calling intents. -/
theorem route_errors_contained_witness :
    route_to_agent failAgents 0 "meal_planning" (ctxOf "cook dinner") =
      mkRes false none "Error processing request: meal agent down" ∧
    route_to_agent failAgents 0 "travel" (ctxOf "trip to Rome") =
      mkRes false none "Error processing request: travel agent down" := by
  constructor
  · exact (route_errors_contained failAgents 0 (ctxOf "cook dinner") "meal agent down").1 rfl
  · exact (route_errors_contained failAgents 0 (ctxOf "trip to Rome")
      "travel agent down").2 "Rome" (by decide) rfl

/-- C7 (amended): the day count passed to the meal agent is
`pyOrNat (extract_days message) 7`: the three patterns in order with first
match winning, then the `week` fallback, then the default 7 — except that
an extracted count of 0 is falsy in Python and also falls back to 7.  The
scenario message extracts 5. -/
theorem meal_days_contract (ag : Agents) (today : Nat) (context : Ctx) :
    (route_to_agent ag today "meal_planning" context =
      match ag.generate_meal_plan context.user_id (pyOrNat (extract_days context.message) 7)
          context.preferences with
      | .ok meal_plan => mkRes true (some (.mealD meal_plan))
          ("Generated " ++ toString (pyOrNat (extract_days context.message) 7) ++
            "-day meal plan")
      | .error e => mkRes false none ("Error processing request: " ++ e)) ∧
    extract_days "Create a 5-day vegetarian meal plan" = some 5 ∧
    (∀ message, search dayPat1 ((pyLower message).toList) = none →
      search dayPat2 ((pyLower message).toList) = none →
      search dayPat3 ((pyLower message).toList) = none →
      extract_days message = if strIn "week" (pyLower message) then some 7 else none) := by
  refine ⟨?_, by decide, ?_⟩
  · rw [route_to_agent.eq_def]
    simp
  · intro message h1 h2 h3
    simp only [String.toList] at h1 h2 h3
    simp [extract_days, h1, h2, h3]

/-- Witness for C7: the scenario extraction feeds the meal agent 5 days,
and the `week` fallback yields 7. -/
theorem meal_days_contract_witness :
    mealDaysOf (route_to_agent demoAgents 0 "meal_planning"
      (ctxOf "Create a 5-day vegetarian meal plan")) = some 5 ∧
    extract_days "plan meals for a week" = some 7 := by
  constructor
  · have h := (meal_days_contract demoAgents 0
      (ctxOf "Create a 5-day vegetarian meal plan")).1
    have hed : extract_days "Create a 5-day vegetarian meal plan" = some 5 := by decide
    rw [h]
    simp [ctxOf, hed, pyOrNat, demoAgents, mealDaysOf, rData, mkRes]
  · have h := (meal_days_contract demoAgents 0 (ctxOf "x")).2.2
      "plan meals for a week" (by decide) (by decide) (by decide)
    rw [if_pos (by decide)] at h
    exact h

/-- C7 counterexample to the first-match-wins wording: a message matching
`0 days` extracts 0, but the meal agent is called with 7 (`0 or 7` is 7 in
Python). -/
theorem meal_days_zero_counterexample :
    extract_days "plan 0 days of meals" = some 0 ∧
    mealDaysOf (route_to_agent demoAgents 0 "meal_planning"
      (ctxOf "plan 0 days of meals")) = some 7 := by
  have hed : extract_days "plan 0 days of meals" = some 0 := by decide
  refine ⟨hed, ?_⟩
  rw [route_to_agent.eq_def]
  simp [ctxOf, hed, pyOrNat, demoAgents, mealDaysOf, rData, mkRes]

end PersonalAgent
